import Mathlib

/-!
Verification of the HEVC batch-transcode script (`main.py`).

The script is shallowly embedded: each Python function becomes a Lean
definition over explicit data.  External collaborators (`ffprobe`,
`ffmpeg`) are modelled by the outcome of their invocation (exit status /
stdout bytes / missing binary), supplied per file as data.  Python
exceptions are modelled with `Except`; the `KeyboardInterrupt` delivered
between loop iterations is modelled by an optional index at which the
loop is interrupted.  Strings are `List Char`; `str.lower()` is
`Char.toLower` mapped over the list (they agree on ASCII, which covers
every literal the script compares against).
-/

namespace HevcTranscode

/-- Python `s.lower()` on a character list. -/
def lowerStr (s : List Char) : List Char := s.map Char.toLower

/-- `leadsIn pat s` holds when `pat` is an initial segment of `s`
(helper for the Python substring test). -/
def leadsIn : List Char → List Char → Bool
  | [], _ => true
  | _ :: _, [] => false
  | p :: ps, c :: cs => (p == c) && leadsIn ps cs

/-- Python's substring test `pat in s`. -/
def occursIn (pat : List Char) : List Char → Bool
  | [] => pat.isEmpty
  | c :: cs => leadsIn pat (c :: cs) || occursIn pat cs

/-- The Python exceptions the script can raise or catch. -/
inductive PyError
  | calledProcessError
  | fileNotFoundError
  | unicodeDecodeError
  | zeroDivisionError
  deriving DecidableEq

/-- Outcome of one `ffprobe` invocation (`subprocess.check_output`):
exit 0 with stdout bytes (which may or may not be valid UTF-8),
non-zero exit, or the `ffprobe` binary being absent. -/
inductive ProbeOutcome
  | output (decodes : Bool) (text : List Char)
  | nonZeroExit
  | binaryMissing
  deriving DecidableEq

/-- `is_hevc` from `main.py`.  `subprocess.check_output` raises
`CalledProcessError` on a non-zero exit — the only exception the
`except` clause catches (it logs and returns `False`).  A missing
binary raises `FileNotFoundError` and an undecodable stdout raises
`UnicodeDecodeError`; neither is a `CalledProcessError`, so both
propagate out of the function. -/
def is_hevc (po : ProbeOutcome) : Except PyError Bool :=
  match po with
  | .output decodes text =>
      if decodes then
        .ok (occursIn ['h', 'e', 'v', 'c'] (lowerStr text)
              || occursIn ['h', '2', '6', '5'] (lowerStr text))
      else .error .unicodeDecodeError
  | .nonZeroExit => .ok false
  | .binaryMissing => .error .fileNotFoundError

/-- Split a name at its last `'.'`: `rsplitDot l = some (pre, post)`
when `l = pre ++ '.' :: post` and `post` is dot-free; `none` when `l`
has no dot.  This is `str.rfind('.')` in list form. -/
def rsplitDot : List Char → Option (List Char × List Char)
  | [] => none
  | c :: cs =>
      match rsplitDot cs with
      | some (pre, post) => some (c :: pre, post)
      | none => if c = '.' then some ([], cs) else none

/-- `pathlib.PurePath.suffix`: the part of the final component from the
last dot on, empty when the last dot is the first or the last
character (or absent). -/
def pySuffix (name : List Char) : List Char :=
  match rsplitDot name with
  | some (_ :: _, q :: qs) => '.' :: q :: qs
  | _ => []

/-- `pathlib.PurePath.stem`: the final component with `pySuffix`
removed. -/
def pyStem (name : List Char) : List Char :=
  match rsplitDot name with
  | some (a :: pre, _ :: _) => a :: pre
  | _ => name

/-- `pathlib.PurePath.with_suffix`: the name with its suffix replaced
(the stem with the new suffix appended). -/
def pyWithSuffix (name : List Char) (suffix : List Char) : List Char :=
  pyStem name ++ suffix

/-- A filesystem path: parent directory components plus a final
component. -/
structure PyPath where
  dirs : List (List Char)
  name : List Char
  deriving DecidableEq

/-- Outcome of one `ffmpeg` invocation: the process ran and exited with
`code`, or the binary is absent. -/
inductive EncodeOutcome
  | exited (code : Int)
  | binaryMissing
  deriving DecidableEq

/-- `subprocess.run` without `check=True`: a completed process is
returned whatever its exit status (no `CalledProcessError` is ever
raised); a missing binary raises `FileNotFoundError`. -/
def subprocessRun (enc : EncodeOutcome) : Except PyError Int :=
  match enc with
  | .exited code => .ok code
  | .binaryMissing => .error .fileNotFoundError

/-- Log messages the script emits (`logger.info` / `error` /
`warning`).  The dry-run summary's percentage is a float formatted with
`:.2f`; only the integer counts it is computed from are carried
here, and the division by `total` is modelled in the orchestrator
(it raises `ZeroDivisionError` when `total = 0`). -/
inductive LogMsg
  | totalFound (total : Nat)
  | calculating
  | probeError (f : PyPath)
  | transcodeError
  | drySummary (count total : Nat)
  | liveSummary (count total : Nat)
  | interruptWarning
  deriving DecidableEq

/-- `transcode_to_hevc` from `main.py`.  The output path is the input
with its suffix replaced by `".mp4"`.  The `except CalledProcessError`
handler (which would log `transcodeError`) is kept in the model, but
`subprocessRun` never produces that error, so the handler is
unreachable and a non-zero encoder exit is silent. -/
def transcode_to_hevc (input : PyPath) (enc : EncodeOutcome) :
    Except PyError (PyPath × List LogMsg) :=
  let output : PyPath := { dirs := input.dirs, name := pyWithSuffix input.name ['.', 'm', 'p', '4'] }
  match subprocessRun enc with
  | .ok _ => .ok (output, [])
  | .error .calledProcessError => .ok (output, [LogMsg.transcodeError])
  | .error e => .error e

/-- Kind of a directory entry. -/
inductive EntryKind
  | file
  | dir
  deriving DecidableEq

/-- One entry below the target directory: its path relative to the
target and whether it is a regular file or a directory. -/
structure FsEntry where
  path : PyPath
  kind : EntryKind
  deriving DecidableEq

/-- The allow-list from `main.py`: `(".mp4", ".mkv", ".avi")`. -/
def video_extensions : List (List Char) :=
  [['.', 'm', 'p', '4'], ['.', 'm', 'k', 'v'], ['.', 'a', 'v', 'i']]

/-- The list comprehension in `main`:
`[f for f in target.glob("**/*.*") if f.suffix.lower() in video_extensions]`.
`glob("**/*.*")` yields every descendant entry — regular file or
directory — whose final name contains a dot (pathlib performs no
`is_file()` check); the comprehension keeps those whose lowercased
suffix is on the allow-list.  `fs` is the list of descendants in
traversal order. -/
def discover (fs : List FsEntry) : List FsEntry :=
  fs.filter (fun e =>
    decide ('.' ∈ e.path.name) &&
      decide (lowerStr (pySuffix e.path.name) ∈ video_extensions))

/-- The discoverer the specification describes: exactly the regular
files whose extension case-insensitively matches the allow-list, and
no others.  Stated for comparison with `discover`. -/
def discoverSpec (fs : List FsEntry) : List FsEntry :=
  fs.filter (fun e =>
    decide (e.kind = EntryKind.file) &&
      decide (lowerStr (pySuffix e.path.name) ∈ video_extensions))

/-- One discovered file together with the behaviour of the external
collaborators on it: what `ffprobe` does when asked about it and what
`ffmpeg` does when asked to transcode it. -/
structure FileRun where
  path : PyPath
  probe : ProbeOutcome
  encode : EncodeOutcome
  deriving DecidableEq

/-- A file whose probe and encode neither raise an uncaught exception:
the probe either returns decodable output or exits non-zero (caught),
and the encoder binary is present. -/
def safeRun (f : FileRun) : Bool :=
  (match f.probe with
   | .output d _ => d
   | .nonZeroExit => true
   | .binaryMissing => false) &&
  (match f.encode with
   | .exited _ => true
   | .binaryMissing => false)

/-- The file is classified "not already HEVC" (`not is_hevc(...)`),
i.e. it will be counted and, when live, transcoded. -/
def nonCompliant (f : FileRun) : Bool :=
  match is_hevc f.probe with
  | .ok false => true
  | _ => false

/-- The error lines `is_hevc` logs: two `logger.error` calls when
`check_output` exits non-zero (modelled as one `probeError` message),
nothing otherwise (the uncaught exceptions bypass the handler). -/
def probeLogs (f : FileRun) : List LogMsg :=
  match f.probe with
  | .nonZeroExit => [LogMsg.probeError f.path]
  | _ => []

/-- How one pass of the per-file loop ended: ran to completion, was
interrupted by `KeyboardInterrupt` between iterations, or aborted by
an uncaught exception. -/
inductive LoopExit
  | done
  | interrupted
  | raised (e : PyError)
  deriving DecidableEq

/-- The dry-run loop of `main`: `if not is_hevc(f): count += 1`.
`intr = some k` delivers a `KeyboardInterrupt` just before the `k`-th
remaining file is probed.  Returns the final count, the log messages
emitted, and how the loop ended. -/
def dryLoop : List FileRun → Option Nat → Nat → Nat × List LogMsg × LoopExit
  | [], _, count => (count, [], LoopExit.done)
  | f :: fs, intr, count =>
    if intr = some 0 then (count, [], LoopExit.interrupted)
    else
      match is_hevc f.probe with
      | .error e => (count, probeLogs f, LoopExit.raised e)
      | .ok b =>
          let r := dryLoop fs (intr.map (· - 1)) (if b then count else count + 1)
          (r.1, probeLogs f ++ r.2.1, r.2.2)

/-- The live loop of `main`:
`if not is_hevc(f): transcode_to_hevc(f); count += 1`.
Also returns, in order, the inputs the encoder was invoked on. -/
def liveLoop : List FileRun → Option Nat → Nat → Nat × List LogMsg × List PyPath × LoopExit
  | [], _, count => (count, [], [], LoopExit.done)
  | f :: fs, intr, count =>
    if intr = some 0 then (count, [], [], LoopExit.interrupted)
    else
      match is_hevc f.probe with
      | .error e => (count, probeLogs f, [], LoopExit.raised e)
      | .ok true =>
          let r := liveLoop fs (intr.map (· - 1)) count
          (r.1, probeLogs f ++ r.2.1, r.2.2.1, r.2.2.2)
      | .ok false =>
          match transcode_to_hevc f.path f.encode with
          | .error e => (count, probeLogs f, [f.path], LoopExit.raised e)
          | .ok t =>
              let r := liveLoop fs (intr.map (· - 1)) (count + 1)
              (r.1, probeLogs f ++ t.2 ++ r.2.1, f.path :: r.2.2.1, r.2.2.2)

/-- How the process ended: fell off `main` normally (exit 0), or an
exception escaped `main` (the uncaught-fault default). -/
inductive RunExit
  | normal
  | unhandled (e : PyError)
  deriving DecidableEq

/-- Observable result of one run of `main`: the log stream, the
encoder invocations in order, and how the process ended. -/
structure RunResult where
  logs : List LogMsg
  encoderCalls : List PyPath
  exit : RunExit
  deriving DecidableEq

/-- `main(target_directory, dry_run)` from `main.py`, applied to the
discovered file list.  The `try` block catches only
`KeyboardInterrupt` (logging a warning and ending normally); any other
exception — including the `ZeroDivisionError` from the dry-run
percentage `(count / total) * 100` when `total = 0` — escapes.  The
live summary interpolates `count`/`total` directly with no
division. -/
def runMain (files : List FileRun) (dryRun : Bool) (interrupt : Option Nat) : RunResult :=
  let total := files.length
  if dryRun then
    let r := dryLoop files interrupt 0
    let head := [LogMsg.totalFound total, LogMsg.calculating]
    match r.2.2 with
    | LoopExit.interrupted =>
        { logs := head ++ r.2.1 ++ [LogMsg.interruptWarning], encoderCalls := [], exit := RunExit.normal }
    | LoopExit.raised e =>
        { logs := head ++ r.2.1, encoderCalls := [], exit := RunExit.unhandled e }
    | LoopExit.done =>
        if total = 0 then
          { logs := head ++ r.2.1, encoderCalls := [], exit := RunExit.unhandled PyError.zeroDivisionError }
        else
          { logs := head ++ r.2.1 ++ [LogMsg.drySummary r.1 total], encoderCalls := [], exit := RunExit.normal }
  else
    let r := liveLoop files interrupt 0
    match r.2.2.2 with
    | LoopExit.interrupted =>
        { logs := r.2.1 ++ [LogMsg.interruptWarning], encoderCalls := r.2.2.1, exit := RunExit.normal }
    | LoopExit.raised e =>
        { logs := r.2.1, encoderCalls := r.2.2.1, exit := RunExit.unhandled e }
    | LoopExit.done =>
        { logs := r.2.1 ++ [LogMsg.liveSummary r.1 total], encoderCalls := r.2.2.1, exit := RunExit.normal }

/-! Concrete fixtures used by counterexamples and witnesses. -/

/-- `vids/movie.mkv`. -/
def samplePath : PyPath :=
  { dirs := [['v', 'i', 'd', 's']], name := ['m', 'o', 'v', 'i', 'e', '.', 'm', 'k', 'v'] }

/-- `movie.mp4`: an input that already carries the canonical output
extension. -/
def mp4Input : PyPath := { dirs := [], name := ['m', 'o', 'v', 'i', 'e', '.', 'm', 'p', '4'] }

/-- A directory (not a regular file) named `extras.mp4`. -/
def dotDir : FsEntry :=
  { path := { dirs := [], name := ['e', 'x', 't', 'r', 'a', 's', '.', 'm', 'p', '4'] },
    kind := EntryKind.dir }

/-- Two files whose probes return `h264`: both non-compliant. -/
def files2 : List FileRun :=
  [{ path := { dirs := [], name := ['a', '.', 'm', 'k', 'v'] },
     probe := ProbeOutcome.output true ['h', '2', '6', '4'],
     encode := EncodeOutcome.exited 0 },
   { path := { dirs := [], name := ['b', '.', 'a', 'v', 'i'] },
     probe := ProbeOutcome.output true ['h', '2', '6', '4'],
     encode := EncodeOutcome.exited 0 }]

/-- Three files: non-compliant (`h264`), compliant (`hevc`), and one
whose probe exits non-zero (treated as non-compliant). -/
def files3 : List FileRun :=
  [{ path := { dirs := [], name := ['a', '.', 'm', 'k', 'v'] },
     probe := ProbeOutcome.output true ['h', '2', '6', '4'],
     encode := EncodeOutcome.exited 0 },
   { path := { dirs := [], name := ['b', '.', 'm', 'p', '4'] },
     probe := ProbeOutcome.output true ['h', 'e', 'v', 'c'],
     encode := EncodeOutcome.exited 0 },
   { path := { dirs := [], name := ['c', '.', 'a', 'v', 'i'] },
     probe := ProbeOutcome.nonZeroExit,
     encode := EncodeOutcome.exited 1 }]

/-! Helper lemmas: the substring test, `rsplitDot`, and path suffixes. -/

theorem leadsIn_iff (pat : List Char) : ∀ s : List Char, leadsIn pat s = true ↔ ∃ t, s = pat ++ t := by
  induction pat with
  | nil => intro s; simp [leadsIn]
  | cons p ps ih =>
      intro s
      cases s with
      | nil => simp [leadsIn]
      | cons c cs =>
          simp only [leadsIn, Bool.and_eq_true, beq_iff_eq, ih cs]
          constructor
          · rintro ⟨rfl, t, rfl⟩; exact ⟨t, rfl⟩
          · rintro ⟨t, h⟩
            rw [List.cons_append] at h
            obtain ⟨rfl, rfl⟩ := List.cons.inj h
            exact ⟨rfl, t, rfl⟩

theorem occursIn_iff (pat : List Char) : ∀ s : List Char,
    occursIn pat s = true ↔ ∃ u v, s = u ++ pat ++ v := by
  intro s
  induction s with
  | nil =>
      simp only [occursIn, List.isEmpty_iff]
      constructor
      · rintro rfl; exact ⟨[], [], rfl⟩
      · rintro ⟨u, v, h⟩
        rcases List.append_eq_nil.mp h.symm with ⟨h1, h2⟩
        exact (List.append_eq_nil.mp h1).2
  | cons c cs ih =>
      simp only [occursIn, Bool.or_eq_true, leadsIn_iff, ih]
      constructor
      · rintro (⟨t, h⟩ | ⟨u, v, h⟩)
        · exact ⟨[], t, by simpa using h⟩
        · exact ⟨c :: u, v, by simp [h]⟩
      · rintro ⟨u, v, h⟩
        cases u with
        | nil => exact Or.inl ⟨v, by simpa using h⟩
        | cons x xs =>
            simp only [List.cons_append] at h
            obtain ⟨rfl, rfl⟩ := List.cons.inj h
            exact Or.inr ⟨xs, v, rfl⟩

theorem map_split (f : Char → Char) : ∀ (l₁ l l₂ : List Char), l.map f = l₁ ++ l₂ →
    ∃ a b, l = a ++ b ∧ a.map f = l₁ ∧ b.map f = l₂ := by
  intro l₁
  induction l₁ with
  | nil => intro l l₂ h; exact ⟨[], l, rfl, rfl, by simpa using h⟩
  | cons x xs ih =>
      intro l l₂ h
      cases l with
      | nil => simp at h
      | cons c cs =>
          rw [List.map_cons, List.cons_append] at h
          obtain ⟨hx, hcs⟩ := List.cons.inj h
          obtain ⟨a, b, rfl, ha, hb⟩ := ih cs l₂ hcs
          exact ⟨c :: a, b, rfl, by simp [hx, ha], hb⟩

/-- The Python test `pat in s.lower()` holds exactly when some segment
of `s` lowercases to `pat`. -/
theorem occursIn_lower_iff (pat t : List Char) :
    occursIn pat (lowerStr t) = true ↔ ∃ u v w, t = v ++ u ++ w ∧ lowerStr u = pat := by
  rw [occursIn_iff]
  constructor
  · rintro ⟨s₁, s₂, h⟩
    obtain ⟨a, rest, rfl, ha, hrest⟩ :=
      map_split Char.toLower (s₁ ++ pat) t s₂ (by simpa [lowerStr, List.append_assoc] using h)
    obtain ⟨u, w, rfl, hu, hw⟩ := map_split Char.toLower s₁ a pat ha
    exact ⟨w, u, rest, by simp, hw⟩
  · rintro ⟨u, v, w, rfl, rfl⟩
    exact ⟨lowerStr v, lowerStr w, by simp [lowerStr]⟩

theorem rsplitDot_append_none (ys : List Char) (hys : rsplitDot ys = none) :
    ∀ xs : List Char, rsplitDot (xs ++ '.' :: ys) = some (xs, ys) := by
  intro xs
  induction xs with
  | nil => simp [rsplitDot, hys]
  | cons c cs ih => simp [rsplitDot, ih]

theorem rsplitDot_eq_some : ∀ (l pre post : List Char),
    rsplitDot l = some (pre, post) → l = pre ++ '.' :: post := by
  intro l
  induction l with
  | nil => intro pre post h; simp [rsplitDot] at h
  | cons c cs ih =>
      intro pre post h
      simp only [rsplitDot] at h
      cases hcs : rsplitDot cs with
      | some pq =>
          obtain ⟨p, q⟩ := pq
          rw [hcs] at h
          simp only [Option.some.injEq, Prod.mk.injEq] at h
          obtain ⟨h1, h2⟩ := h
          subst h1
          subst h2
          rw [ih p q hcs]
          rfl
      | none =>
          rw [hcs] at h
          by_cases hc : c = '.'
          · rw [if_pos hc] at h
            simp only [Option.some.injEq, Prod.mk.injEq] at h
            obtain ⟨h1, h2⟩ := h
            subst h1
            subst h2
            simp [hc]
          · rw [if_neg hc] at h
            simp at h

/-- A suffix on the allow-list forces `rsplitDot` to split the name at
an interior dot. -/
theorem rsplitDot_shape_of_suffix_mem (name : List Char)
    (h : lowerStr (pySuffix name) ∈ video_extensions) :
    ∃ a pre q qs, rsplitDot name = some (a :: pre, q :: qs) := by
  cases hr : rsplitDot name with
  | none =>
      rw [pySuffix, hr] at h
      simp [lowerStr, video_extensions] at h
  | some pq =>
      obtain ⟨pre0, post0⟩ := pq
      cases pre0 with
      | nil => rw [pySuffix, hr] at h; simp [lowerStr, video_extensions] at h
      | cons a pre =>
          cases post0 with
          | nil => rw [pySuffix, hr] at h; simp [lowerStr, video_extensions] at h
          | cons q qs => exact ⟨a, pre, q, qs, rfl⟩

/-- A name whose suffix matches the allow-list contains a dot (so the
`*.*` glob condition is subsumed by the suffix test). -/
theorem dot_mem_of_suffix_mem (name : List Char)
    (h : lowerStr (pySuffix name) ∈ video_extensions) : '.' ∈ name := by
  obtain ⟨a, pre, q, qs, hr⟩ := rsplitDot_shape_of_suffix_mem name h
  rw [rsplitDot_eq_some name _ _ hr]
  simp

/-- A safe probe never raises: `is_hevc` returns a boolean. -/
theorem is_hevc_ok_of_safe (f : FileRun) (h : safeRun f = true) :
    ∃ b, is_hevc f.probe = Except.ok b := by
  cases hp : f.probe with
  | output d t =>
      cases d with
      | false => rw [safeRun, hp] at h; simp at h
      | true => exact ⟨_, rfl⟩
  | nonZeroExit => exact ⟨false, rfl⟩
  | binaryMissing => rw [safeRun, hp] at h; simp at h

/-- A safe encode returns the derived output path with no log. -/
theorem transcode_ok_of_safe (f : FileRun) (h : safeRun f = true) :
    transcode_to_hevc f.path f.encode =
      Except.ok ({ dirs := f.path.dirs, name := pyWithSuffix f.path.name ['.', 'm', 'p', '4'] }, []) := by
  cases he : f.encode with
  | exited code => rfl
  | binaryMissing => rw [safeRun, he] at h; simp at h

/-- A completed `transcode_to_hevc` call never logs anything. -/
theorem transcode_ok_logs (p : PyPath) (enc : EncodeOutcome) (t : PyPath × List LogMsg)
    (h : transcode_to_hevc p enc = Except.ok t) : t.2 = [] := by
  obtain ⟨o, l⟩ := t
  cases enc with
  | exited code =>
      simp only [transcode_to_hevc, subprocessRun, Except.ok.injEq, Prod.mk.injEq] at h
      exact h.2.symm
  | binaryMissing => simp [transcode_to_hevc, subprocessRun] at h

theorem nonCompliant_eq (f : FileRun) (b : Bool) (hb : is_hevc f.probe = Except.ok b) :
    nonCompliant f = !b := by
  cases b <;> simp [nonCompliant, hb]

theorem probeLogs_shape (f : FileRun) (m : LogMsg) (h : m ∈ probeLogs f) :
    m = LogMsg.probeError f.path := by
  cases hp : f.probe <;> rw [probeLogs, hp] at h <;> simp_all

/-- Closed form of the uninterrupted live loop on safe files: final
count, encoder invocations (the non-compliant files in order), and a
completed exit. -/
theorem liveLoop_none_spec : ∀ (files : List FileRun) (count : Nat), files.all safeRun = true →
    (liveLoop files none count).1 = count + (files.filter nonCompliant).length ∧
    (liveLoop files none count).2.2.1 = (files.filter nonCompliant).map FileRun.path ∧
    (liveLoop files none count).2.2.2 = LoopExit.done := by
  intro files
  induction files with
  | nil => intro count h; simp [liveLoop]
  | cons f fs ih =>
      intro count h
      rw [List.all_cons, Bool.and_eq_true] at h
      obtain ⟨hf, hfs⟩ := h
      obtain ⟨b, hb⟩ := is_hevc_ok_of_safe f hf
      have hn := nonCompliant_eq f b hb
      cases b with
      | true =>
          obtain ⟨ih1, ih2, ih3⟩ := ih count hfs
          simp [liveLoop, hb, hn, Option.map, ih1, ih2, ih3, List.filter_cons]
      | false =>
          have ht := transcode_ok_of_safe f hf
          obtain ⟨ih1, ih2, ih3⟩ := ih (count + 1) hfs
          simp only [liveLoop, hb, ht, Option.map] at *
          simp [hn, List.filter_cons, ih1, ih2, ih3]
          omega

/-- Closed form of the uninterrupted dry loop on safe files. -/
theorem dryLoop_none_spec : ∀ (files : List FileRun) (count : Nat), files.all safeRun = true →
    (dryLoop files none count).1 = count + (files.filter nonCompliant).length ∧
    (dryLoop files none count).2.2 = LoopExit.done := by
  intro files
  induction files with
  | nil => intro count h; simp [dryLoop]
  | cons f fs ih =>
      intro count h
      rw [List.all_cons, Bool.and_eq_true] at h
      obtain ⟨hf, hfs⟩ := h
      obtain ⟨b, hb⟩ := is_hevc_ok_of_safe f hf
      have hn := nonCompliant_eq f b hb
      cases b with
      | true =>
          obtain ⟨ih1, ih2⟩ := ih count hfs
          simp [dryLoop, hb, hn, Option.map, ih1, ih2, List.filter_cons]
      | false =>
          obtain ⟨ih1, ih2⟩ := ih (count + 1) hfs
          simp [dryLoop, hb, hn, Option.map, ih1, ih2, List.filter_cons]
          omega

/-- Every message the live loop emits is a probe-error line. -/
theorem liveLoop_logs_probeError : ∀ (files : List FileRun) (intr : Option Nat) (count : Nat)
    (m : LogMsg), m ∈ (liveLoop files intr count).2.1 → ∃ p, m = LogMsg.probeError p := by
  intro files
  induction files with
  | nil => intro intr count m hm; simp [liveLoop] at hm
  | cons f fs ih =>
      intro intr count m hm
      by_cases hi : intr = some 0
      · rw [liveLoop, if_pos hi] at hm; simp at hm
      · rw [liveLoop, if_neg hi] at hm
        cases hp : is_hevc f.probe with
        | error e =>
            simp only [hp] at hm
            exact ⟨f.path, probeLogs_shape f m hm⟩
        | ok b =>
            cases b with
            | true =>
                simp only [hp] at hm
                rcases List.mem_append.mp hm with hm | hm
                · exact ⟨f.path, probeLogs_shape f m hm⟩
                · exact ih _ _ m hm
            | false =>
                cases ht : transcode_to_hevc f.path f.encode with
                | error e =>
                    simp only [hp, ht] at hm
                    exact ⟨f.path, probeLogs_shape f m hm⟩
                | ok t =>
                    have hl := transcode_ok_logs f.path f.encode t ht
                    simp only [hp, ht, hl, List.append_nil] at hm
                    rcases List.mem_append.mp hm with hm | hm
                    · exact ⟨f.path, probeLogs_shape f m hm⟩
                    · exact ih _ _ m hm

/-- Every message the dry loop emits is a probe-error line. -/
theorem dryLoop_logs_probeError : ∀ (files : List FileRun) (intr : Option Nat) (count : Nat)
    (m : LogMsg), m ∈ (dryLoop files intr count).2.1 → ∃ p, m = LogMsg.probeError p := by
  intro files
  induction files with
  | nil => intro intr count m hm; simp [dryLoop] at hm
  | cons f fs ih =>
      intro intr count m hm
      by_cases hi : intr = some 0
      · rw [dryLoop, if_pos hi] at hm; simp at hm
      · rw [dryLoop, if_neg hi] at hm
        cases hp : is_hevc f.probe with
        | error e =>
            simp only [hp] at hm
            exact ⟨f.path, probeLogs_shape f m hm⟩
        | ok b =>
            simp only [hp] at hm
            rcases List.mem_append.mp hm with hm | hm
            · exact ⟨f.path, probeLogs_shape f m hm⟩
            · exact ih _ _ m hm

/-- A live loop interrupted before file `k` behaves exactly like the
uninterrupted loop over the first `k` files, ending `interrupted`. -/
theorem liveLoop_interrupt_spec : ∀ (files : List FileRun) (k count : Nat), k < files.length →
    (files.take k).all safeRun = true →
    liveLoop files (some k) count =
      ((liveLoop (files.take k) none count).1,
       (liveLoop (files.take k) none count).2.1,
       (liveLoop (files.take k) none count).2.2.1,
       LoopExit.interrupted) := by
  intro files
  induction files with
  | nil => intro k count hk; simp at hk
  | cons f fs ih =>
      intro k count hk hs
      cases k with
      | zero => simp [liveLoop]
      | succ j =>
          rw [List.take_succ_cons, List.all_cons, Bool.and_eq_true] at hs
          obtain ⟨hf, hfs⟩ := hs
          have hj : j < fs.length := by simpa using hk
          obtain ⟨b, hb⟩ := is_hevc_ok_of_safe f hf
          cases b with
          | true =>
              simp only [liveLoop, List.take_succ_cons]
              rw [if_neg (by simp), if_neg (by simp)]
              simp only [hb, Option.map, Nat.add_sub_cancel]
              rw [ih j count hj hfs]
          | false =>
              have ht := transcode_ok_of_safe f hf
              simp only [liveLoop, List.take_succ_cons]
              rw [if_neg (by simp), if_neg (by simp)]
              simp only [hb, ht, Option.map, Nat.add_sub_cancel]
              rw [ih j (count + 1) hj hfs]

/-- A dry loop interrupted before file `k` behaves exactly like the
uninterrupted loop over the first `k` files, ending `interrupted`. -/
theorem dryLoop_interrupt_spec : ∀ (files : List FileRun) (k count : Nat), k < files.length →
    (files.take k).all safeRun = true →
    dryLoop files (some k) count =
      ((dryLoop (files.take k) none count).1,
       (dryLoop (files.take k) none count).2.1,
       LoopExit.interrupted) := by
  intro files
  induction files with
  | nil => intro k count hk; simp at hk
  | cons f fs ih =>
      intro k count hk hs
      cases k with
      | zero => simp [dryLoop]
      | succ j =>
          rw [List.take_succ_cons, List.all_cons, Bool.and_eq_true] at hs
          obtain ⟨hf, hfs⟩ := hs
          have hj : j < fs.length := by simpa using hk
          obtain ⟨b, hb⟩ := is_hevc_ok_of_safe f hf
          cases b with
          | true =>
              simp only [dryLoop, List.take_succ_cons]
              rw [if_neg (by simp), if_neg (by simp)]
              simp only [hb, Option.map, Nat.add_sub_cancel, if_true]
              rw [ih j count hj hfs]
          | false =>
              simp only [dryLoop, List.take_succ_cons]
              rw [if_neg (by simp), if_neg (by simp)]
              simp only [hb, Option.map, Nat.add_sub_cancel]
              rw [if_neg Bool.false_ne_true, ih j (count + 1) hj hfs]

/-- In dry-run mode the encoder is never invoked, whatever the probe
outcomes or interrupt: every arm of the dry branch of `main` reports an
empty invocation list. -/
theorem runMain_dry_calls (files : List FileRun) (intr : Option Nat) :
    (runMain files true intr).encoderCalls = [] := by
  simp only [runMain]
  rw [if_true]
  split
  · rfl
  · rfl
  · split <;> rfl

/-! The claims. -/

/-- C1: the claim says a dry run over zero discovered files reports
zero work without a division fault.  The code instead evaluates
`(0 / 0) * 100` in the summary f-string, and the resulting
`ZeroDivisionError` is not caught (`except` only covers
`KeyboardInterrupt`): the run ends with an unhandled fault after the
two introductory log lines. -/
theorem C1_dry_run_zero_files_division_fault :
    runMain [] true none =
      { logs := [LogMsg.totalFound 0, LogMsg.calculating],
        encoderCalls := [],
        exit := RunExit.unhandled PyError.zeroDivisionError } := by
  rfl

/-- C2 counterexample: two non-compliant files, interrupt delivered
between file 1 and file 2.  The loop halts and the process exits
cleanly, but the only message emitted is the interrupt warning — no
summary reflecting the processed file is logged, contrary to the
claim's "a partial summary reflecting files 1..N is still emitted". -/
theorem C2_interrupt_no_summary_counterexample :
    runMain files2 false (some 1) =
      { logs := [LogMsg.interruptWarning],
        encoderCalls := [{ dirs := [], name := ['a', '.', 'm', 'k', 'v'] }],
        exit := RunExit.normal } := by
  decide

/-- C2 (amended): an interrupt delivered between file N and N+1 halts
the loop before file N+1 is probed or transcoded (the run equals the
run over the first N files), the process exits cleanly, and the only
trailing message is the interrupt warning — the loop messages are
probe-error lines only, so no count summary for files 1..N appears. -/
theorem C2_interrupt_halts_cleanly (files : List FileRun) (k : Nat)
    (hk : k < files.length) (hs : (files.take k).all safeRun = true) :
    runMain files false (some k) =
      { logs := (liveLoop (files.take k) none 0).2.1 ++ [LogMsg.interruptWarning],
        encoderCalls := (liveLoop (files.take k) none 0).2.2.1,
        exit := RunExit.normal } ∧
    runMain files true (some k) =
      { logs := [LogMsg.totalFound files.length, LogMsg.calculating]
                  ++ (dryLoop (files.take k) none 0).2.1 ++ [LogMsg.interruptWarning],
        encoderCalls := [],
        exit := RunExit.normal } ∧
    (∀ m ∈ (liveLoop (files.take k) none 0).2.1, ∃ p, m = LogMsg.probeError p) ∧
    (∀ m ∈ (dryLoop (files.take k) none 0).2.1, ∃ p, m = LogMsg.probeError p) := by
  have hl := liveLoop_interrupt_spec files k 0 hk hs
  have hd := dryLoop_interrupt_spec files k 0 hk hs
  refine ⟨?_, ?_, fun m hm => liveLoop_logs_probeError _ _ _ m hm,
    fun m hm => dryLoop_logs_probeError _ _ _ m hm⟩
  · simp [runMain, hl]
  · simp [runMain, hd]

theorem C2_interrupt_halts_cleanly_witness :
    1 < files2.length ∧ (files2.take 1).all safeRun = true ∧
    runMain files2 false (some 1) =
      { logs := (liveLoop (files2.take 1) none 0).2.1 ++ [LogMsg.interruptWarning],
        encoderCalls := (liveLoop (files2.take 1) none 0).2.2.1,
        exit := RunExit.normal } :=
  ⟨by decide, by decide, (C2_interrupt_halts_cleanly files2 1 (by decide) (by decide)).1⟩

/-- C3 counterexample: a probing fault — the prober binary being
missing — is not caught by `is_hevc` (its `except` clause covers only
`CalledProcessError`): the `FileNotFoundError` propagates to the
orchestrator instead of becoming the probe-failed signal. -/
theorem C3_missing_prober_fault_propagates :
    is_hevc ProbeOutcome.binaryMissing = Except.error PyError.fileNotFoundError := rfl

/-- C3 (amended): only the non-zero-exit fault (`CalledProcessError`)
is caught locally and converted into the probe-failed signal
(`False`); a missing prober binary or undecodable prober output
raises an exception that propagates to the orchestrator unhandled. -/
theorem C3_only_nonzero_exit_caught (t : List Char) :
    is_hevc ProbeOutcome.nonZeroExit = Except.ok false ∧
    is_hevc ProbeOutcome.binaryMissing = Except.error PyError.fileNotFoundError ∧
    is_hevc (ProbeOutcome.output false t) = Except.error PyError.unicodeDecodeError :=
  ⟨rfl, rfl, rfl⟩

/-- C4: when the prober succeeds (exit 0, decodable output), the file
is classified as already-HEVC exactly when some segment of the output
lowercases to `"hevc"` or to `"h265"` (the case-insensitive
containment test); when the prober exits non-zero the file is
classified not-target-codec (`False`), hence queued for
transcoding. -/
theorem C4_probe_codec_classification (t : List Char) :
    (is_hevc (ProbeOutcome.output true t) = Except.ok true ↔
      (∃ u v w, t = v ++ u ++ w ∧ lowerStr u = ['h', 'e', 'v', 'c']) ∨
      (∃ u v w, t = v ++ u ++ w ∧ lowerStr u = ['h', '2', '6', '5'])) ∧
    is_hevc ProbeOutcome.nonZeroExit = Except.ok false := by
  constructor
  · have hdef : is_hevc (ProbeOutcome.output true t)
        = Except.ok (occursIn ['h', 'e', 'v', 'c'] (lowerStr t)
            || occursIn ['h', '2', '6', '5'] (lowerStr t)) := rfl
    rw [hdef, Except.ok.injEq, Bool.or_eq_true, occursIn_lower_iff, occursIn_lower_iff]
  · rfl

/-- C5 counterexample: a directory named `extras.mp4` is returned by
the discoverer (no regular-file check is performed on the glob
results), so the claim "exactly the regular files … and no others"
fails: `discover` disagrees with the spec's discoverer on this
tree. -/
theorem C5_directory_discovered_counterexample :
    discover [dotDir] = [dotDir] ∧ discoverSpec [dotDir] = [] ∧ dotDir.kind ≠ EntryKind.file :=
  ⟨by decide, by decide, by decide⟩

/-- C5 (amended): the discoverer returns exactly the descendant
entries — regular files and directories alike — whose extension
case-insensitively matches the allow-list; it performs no
regular-file check, so the entry's kind is irrelevant to
membership. -/
theorem C5_discover_membership (fs : List FsEntry) (e : FsEntry) :
    e ∈ discover fs ↔ e ∈ fs ∧ lowerStr (pySuffix e.path.name) ∈ video_extensions := by
  simp only [discover, List.mem_filter, Bool.and_eq_true, decide_eq_true_eq]
  constructor
  · rintro ⟨h1, _, h3⟩; exact ⟨h1, h3⟩
  · rintro ⟨h1, h2⟩; exact ⟨h1, dot_mem_of_suffix_mem _ h2, h2⟩

/-- C6: in dry-run mode the encoder is invoked for zero files; in
live mode it is invoked exactly once per file classified
non-compliant, in discovery order. -/
theorem C6_encoder_invocations (files : List FileRun) (h : files.all safeRun = true) :
    (runMain files true none).encoderCalls = [] ∧
    (runMain files false none).encoderCalls = (files.filter nonCompliant).map FileRun.path := by
  refine ⟨runMain_dry_calls files none, ?_⟩
  obtain ⟨h1, h2, h3⟩ := liveLoop_none_spec files 0 h
  simp [runMain, h2, h3]

theorem C6_encoder_invocations_witness :
    files3.all safeRun = true ∧
    ((runMain files3 true none).encoderCalls = [] ∧
     (runMain files3 false none).encoderCalls = (files3.filter nonCompliant).map FileRun.path) :=
  ⟨by decide, C6_encoder_invocations files3 (by decide)⟩

/-- C7: when the encoder exits non-zero, `transcode_to_hevc` still
returns the derived output path and the orchestrator still counts the
file as transcoded — but, contrary to the claim, nothing is logged:
`subprocess.run` is called without `check=True`, so no
`CalledProcessError` is raised and the logging `except` branch is
unreachable.  At the failing input (encoder exit status 1) the call
returns the output path with an empty log, and a one-file live run
ends normally reporting `1/1` with no error line. -/
theorem C7_encoder_failure_is_silent :
    transcode_to_hevc samplePath (EncodeOutcome.exited 1) =
      Except.ok ({ dirs := [['v', 'i', 'd', 's']],
                   name := ['m', 'o', 'v', 'i', 'e', '.', 'm', 'p', '4'] }, []) ∧
    runMain [{ path := samplePath,
               probe := ProbeOutcome.output true ['h', '2', '6', '4'],
               encode := EncodeOutcome.exited 1 }] false none =
      { logs := [LogMsg.liveSummary 1 1],
        encoderCalls := [samplePath],
        exit := RunExit.normal } :=
  ⟨rfl, by decide⟩

/-- C8: for an input whose extension (case-insensitively) is on the
allow-list, the transcode operation derives its output path by
replacing the extension with `.mp4`, preserving the parent directory
and the stem. -/
theorem C8_output_path_same_stem_mp4 (p : PyPath) (code : Int)
    (h : lowerStr (pySuffix p.name) ∈ video_extensions) :
    ∃ out : PyPath,
      transcode_to_hevc p (EncodeOutcome.exited code) = Except.ok (out, []) ∧
      out.dirs = p.dirs ∧ pyStem out.name = pyStem p.name ∧
      pySuffix out.name = ['.', 'm', 'p', '4'] := by
  obtain ⟨a, pre, q, qs, hr⟩ := rsplitDot_shape_of_suffix_mem p.name h
  have hstem : pyStem p.name = a :: pre := by rw [pyStem, hr]
  have hmp : rsplitDot ['m', 'p', '4'] = none := by decide
  have hsplit := rsplitDot_append_none ['m', 'p', '4'] hmp (a :: pre)
  refine ⟨{ dirs := p.dirs, name := pyWithSuffix p.name ['.', 'm', 'p', '4'] }, rfl, rfl, ?_, ?_⟩
  · rw [pyWithSuffix, hstem]
    rw [pyStem, hsplit]
  · rw [pyWithSuffix, hstem]
    rw [pySuffix, hsplit]

theorem C8_output_path_same_stem_mp4_witness :
    lowerStr (pySuffix samplePath.name) ∈ video_extensions ∧
    (∃ out : PyPath,
      transcode_to_hevc samplePath (EncodeOutcome.exited 0) = Except.ok (out, []) ∧
      out.dirs = samplePath.dirs ∧ pyStem out.name = pyStem samplePath.name ∧
      pySuffix out.name = ['.', 'm', 'p', '4']) :=
  ⟨by decide, C8_output_path_same_stem_mp4 samplePath 0 (by decide)⟩

/-- C9: the claim says the derived output path never equals the input
path when the input already carries `.mp4`.  In the code
`with_suffix(".mp4")` is the identity on such inputs: for
`movie.mp4` the derived output path is `movie.mp4` itself, so the
input is targeted for overwrite. -/
theorem C9_mp4_input_targeted_for_overwrite :
    transcode_to_hevc mp4Input (EncodeOutcome.exited 0) = Except.ok (mp4Input, []) := rfl

/-- C10: a live run ends normally with the summary carrying the raw
count/total pair — the live summary never computes a percentage (no
division occurs in the live branch, so `total = 0` raises nothing),
and with zero discovered files it reports `0/0 files transcoded`. -/
theorem C10_live_summary_no_percentage (files : List FileRun) (h : files.all safeRun = true) :
    runMain files false none =
      { logs := (liveLoop files none 0).2.1
                  ++ [LogMsg.liveSummary (files.filter nonCompliant).length files.length],
        encoderCalls := (files.filter nonCompliant).map FileRun.path,
        exit := RunExit.normal } ∧
    runMain [] false none =
      { logs := [LogMsg.liveSummary 0 0], encoderCalls := [], exit := RunExit.normal } := by
  obtain ⟨h1, h2, h3⟩ := liveLoop_none_spec files 0 h
  refine ⟨?_, by decide⟩
  simp [runMain, h1, h2, h3]

theorem C10_live_summary_no_percentage_witness :
    files3.all safeRun = true ∧
    runMain files3 false none =
      { logs := (liveLoop files3 none 0).2.1
                  ++ [LogMsg.liveSummary (files3.filter nonCompliant).length files3.length],
        encoderCalls := (files3.filter nonCompliant).map FileRun.path,
        exit := RunExit.normal } :=
  ⟨by decide, (C10_live_summary_no_percentage files3 (by decide)).1⟩

end HevcTranscode
